import Mathlib

/-!
Verification of the modal command-bar interaction engine (`src/src/app/mod.rs`,
`src/src/app/command.rs`, `src/src/app/shortcut.rs`) against its specification.

The Rust state (`Model` in `mod.rs`) is embedded as a Lean structure; the relm
message enum as an inductive `Msg`; hash maps (`Mappings`, `ModesHash`,
`shortcuts`) as association lists with lookup-first semantics; boxed one-shot
callbacks as an `Option Nat` identity, with the actual invocation recorded as an
`Event.invokeCallback` carrying the value readable in the callback slot at
invocation time (so that at-most-once / cleared-before-invoke properties are
expressible).  Outward effects (emissions to the relm stream, to the GTK widget
surfaces, to the command-line parser and to the error sink) are recorded as
`Event` values; pure UI calls with no bearing on the specified behaviour
(label updates, completion widget refreshes, colour overrides on the GTK status
bar beyond the colour tag itself) are not part of the state.
-/

namespace Mg

/-- Logical keys (`mg_settings::key::Key`, a collaborator type with structural
equality): a printable character, a control-chord on a character, or one of the
named keys used by the shortcut matcher. -/
inductive Key where
  | char (c : Char)
  | ctrlChar (c : Char)
  | tab
  | shiftTab
  | escape
deriving DecidableEq, Repr

/-- Raw GDK key values, as far as the handlers in `src/` distinguish them:
`Tab`, `ISO_Left_Tab`, `Escape`, a printable character, or anything else. -/
inductive Keyval where
  | char (c : Char)
  | tab
  | isoLeftTab
  | escape
  | unknown (code : Nat)
deriving DecidableEq, Repr

/-- A GDK key event: the key value plus whether the control modifier is held
(`key.get_state() & CONTROL_MASK == CONTROL_MASK`). -/
structure KeyEvent where
  keyval : Keyval
  ctrl : Bool
deriving DecidableEq, Repr

/-- Modelled from the spec: the key-code-to-logical-key translation table
(`key_converter::gdk_key_to_key`, a collaborator that is not under `src/`).
Printable characters and the named keys used by the matcher translate
structurally; other key codes (bare modifiers and the like) translate to
nothing. -/
def gdk_key_to_key (keyval : Keyval) (controlPressed : Bool) : Option Key :=
  match keyval with
  | .char c => some (if controlPressed then .ctrlChar c else .char c)
  | .tab => some .tab
  | .isoLeftTab => some .shiftTab
  | .escape => some .escape
  | .unknown _ => none

/-- The key event that produces a given logical key under `gdk_key_to_key`. -/
def eventFor : Key → KeyEvent
  | .char c => ⟨.char c, false⟩
  | .ctrlChar c => ⟨.char c, true⟩
  | .tab => ⟨.tab, false⟩
  | .shiftTab => ⟨.isoLeftTab, false⟩
  | .escape => ⟨.escape, false⟩

/-- Association-list lookup: the model of `HashMap::get`. -/
def alistGet {α β : Type} [DecidableEq α] : List (α × β) → α → Option β
  | [], _ => none
  | (k, v) :: rest, key => if k = key then some v else alistGet rest key

/-- Association-list insertion: the model of `HashMap::insert`
(overwrites an existing binding for the key). -/
def alistInsert {α β : Type} [DecidableEq α] : List (α × β) → α → β → List (α × β)
  | [], k, v => [(k, v)]
  | (k', v') :: rest, k, v =>
    if k' = k then (k, v) :: rest else (k', v') :: alistInsert rest k v

/-- Association-list removal: the model of `HashMap::remove` (silent when the
key is absent). -/
def alistRemove {α β : Type} [DecidableEq α] : List (α × β) → α → List (α × β)
  | [], _ => []
  | (k', v') :: rest, k =>
    if k' = k then alistRemove rest k else (k', v') :: alistRemove rest k

abbrev ModeName := String

/-- An action string bound by a `map` command; the Rust `String` is embedded as
its list of characters so that `action_to_command` can inspect it. -/
abbrev Action := List Char

/-- Per-mode mapping table: `HashMap<Vec<Key>, String>`. -/
abbrev ModeMappings := List (List Key × Action)

/-- `type Mappings = HashMap<&'static str, HashMap<Vec<Key>, String>>`. -/
abbrev Mappings := List (ModeName × ModeMappings)

/-- `type ModesHash = HashMap<&'static str, &'static str>`: short mode prefix
to mode name. -/
abbrev ModesHash := List (String × ModeName)

/-- `enum ShortcutCommand` from `mod.rs`. -/
inductive ShortcutCommand where
  | Complete (command : Action)
  | Incomplete (command : Action)
deriving DecidableEq, Repr

/-- `mg_settings::errors::ErrorType`: the parse-error classification consumed
by `show_parse_error`. -/
inductive ErrorType where
  | MissingArgument
  | NoCommand
  | Parse
  | UnknownCommand
deriving DecidableEq, Repr

/-- The payload of `ErrorKind::Parse`: type tag plus the `unexpected` and
`expected` fragments interpolated into the user-facing message. -/
structure ParseErrorData where
  typ : ErrorType
  unexpected : String
  expected : String
deriving DecidableEq, Repr

/-- `mg_settings::errors::ErrorKind`, restricted to the shapes the code under
`src/` distinguishes: a plain message, a parse error, or any other kind
(IO errors and the like), summarised by a description string. -/
inductive ErrKind where
  | msg (m : String)
  | parse (e : ParseErrorData)
  | other (description : String)
deriving DecidableEq, Repr

/-- An `error_chain` error: its kind plus the chain of causes. -/
structure MgError where
  kind : ErrKind
  causes : List ErrKind
deriving DecidableEq, Repr

/-- `ChainedError::with_chain(error, kind)`: a new error of the given kind whose
cause chain is the whole original error. -/
def with_chain (e : MgError) (k : ErrKind) : MgError :=
  ⟨k, e.kind :: e.causes⟩

/-- The colour tag put on the status bar (`color_red`/`color_orange`/
`color_blue`/`reset_colors`). -/
inductive StatusColor where
  | normal
  | red
  | orange
  | blue
deriving DecidableEq, Repr

def NORMAL_MODE : ModeName := "normal"
def COMMAND_MODE : ModeName := "command"
def INPUT_MODE : ModeName := "input"
def BLOCKING_INPUT_MODE : ModeName := "blocking-input"

/-- The fixed registry of built-in application command names
(`application_commands` in `parse_config`). -/
def application_commands : List String :=
  ["complete-next", "complete-previous", "entry-delete-next-char",
   "entry-delete-next-word", "entry-delete-previous-word", "entry-end",
   "entry-next-char", "entry-next-word", "entry-previous-char",
   "entry-previous-word", "entry-smart-home"]

/-- The relevant part of the relm `Msg` enum: the messages this model emits and
handles.  (`AppClose`, `CustomCommand`, `ModeChanged`, `SettingChanged` are
forwarded to the host and handled as no-ops in `update`; host-bound emissions
are recorded as `Event`s instead.) -/
inductive Msg where
  | EnterNormalModeAndReset
  | HideColoredMessage (message : String)
  | HideInfo (message : String)
deriving DecidableEq, Repr

/-- Outward-visible effects of a handler, recorded in order. -/
inductive Event where
  /-- The stored boxed input callback is invoked: the callback identity, the
  answer it receives, and the content of the `input_callback` slot as a
  re-entrant reader would observe it at the moment of the call. -/
  | invokeCallback (cb : Nat) (answer : Option String) (storedAtCall : Option Nat)
  /-- `gtk::main_quit()`: release of the nested blocking-input event loop. -/
  | mainQuit
  /-- A resolved shortcut action is handed over for execution
  (`handle_command(Some(command))` for a `Complete` action; entry pre-fill for
  an `Incomplete` one). -/
  | dispatch (cmd : ShortcutCommand)
  /-- Activated command-line text handed to `parse_line` and the dispatcher. -/
  | commandLine (text : String)
  /-- Special (non-`:`) command text handed to `COMM::identifier_to_command`. -/
  | specialCommand (identifier : Char) (text : String)
  /-- `CustomCommand` emission to the host. -/
  | emitCustom (payload : String)
  /-- `SettingChanged` emission after a successful `set`. -/
  | settingChanged (name : String) (value : String)
  /-- An error handed to the error sink `self.error(..)`. -/
  | emitError (e : MgError)
deriving DecidableEq, Repr

/-- The mutable state of the controller: the fields of `Model` in `mod.rs` that
carry the specified behaviour.  The boxed `input_callback` closure is
represented by an identity token; `settings`, the parser handle, the variables
table and the widget-only fields are outside the model. -/
structure Model where
  answer : Option String
  choices : List Char
  completion_shown : Bool
  current_command_mode : Char
  current_mode : ModeName
  current_shortcut : List Key
  entry_shown : Bool
  input_callback : Option Nat
  mappings : Mappings
  message : String
  mode_label : String
  modes : ModesHash
  shortcuts : List (Key × String)
  shortcut_pressed : Bool
  color : StatusColor
deriving DecidableEq, Repr

/-- The initial model built in `model(..)` (with the given mode registry). -/
def initialModel (modes : ModesHash) : Model :=
  { answer := none
    choices := []
    completion_shown := false
    current_command_mode := ':'
    current_mode := NORMAL_MODE
    current_shortcut := []
    entry_shown := false
    input_callback := none
    mappings := []
    message := ""
    mode_label := ""
    modes := modes
    shortcuts := []
    shortcut_pressed := false
    color := .normal }

/-- A handler result that carries no `Inhibit` flag. -/
structure Out where
  model : Model
  events : List Event
  msg : Option Msg
deriving DecidableEq, Repr

/-- A key-press handler result: new state, emitted effects, returned message,
and the `Inhibit` flag. -/
structure Step where
  model : Model
  events : List Event
  msg : Option Msg
  inhibit : Bool
deriving DecidableEq, Repr

/-- `add_to_shortcut` (`shortcut.rs`): push the key onto the buffer (the label
refresh is widget-only). -/
def add_to_shortcut (s : Model) (key : Key) : Model :=
  { s with current_shortcut := s.current_shortcut ++ [key] }

/-- `clear_shortcut` (`shortcut.rs`). -/
def clear_shortcut (s : Model) : Model :=
  { s with current_shortcut := [] }

/-- `hide_entry_and_completion` (`mod.rs`). -/
def hide_entry_and_completion (s : Model) : Model :=
  { s with completion_shown := false, entry_shown := false }

/-- `set_mode` (`mod.rs`): set the mode and recompute the derived mode label
(empty for the four built-in modes). -/
def set_mode (s : Model) (mode : ModeName) : Model :=
  let s := { s with current_mode := mode }
  if s.current_mode ≠ NORMAL_MODE ∧ s.current_mode ≠ COMMAND_MODE ∧
      s.current_mode ≠ INPUT_MODE ∧ s.current_mode ≠ BLOCKING_INPUT_MODE then
    { s with mode_label := s.current_mode }
  else
    { s with mode_label := "" }

/-- `set_current_identifier` (`mod.rs`). -/
def set_current_identifier (s : Model) (identifier : Char) : Model :=
  { s with current_command_mode := identifier }

/-- `return_to_normal_mode` (`mod.rs`). -/
def return_to_normal_mode (s : Model) : Model :=
  set_current_identifier (set_mode (hide_entry_and_completion s) NORMAL_MODE) ':'

/-- `reset` (`mod.rs`): reset colours, hide entry and completion, clear the
message and the shortcut buffer. -/
def reset (s : Model) : Model :=
  { s with color := .normal, completion_shown := false, entry_shown := false,
           message := "", current_shortcut := [] }

/-- `show_entry` (`mod.rs`), as far as the model state goes. -/
def show_entry (s : Model) : Model :=
  { s with entry_shown := true }

/-- `hide_info` (`mod.rs`): clear the message only if it still equals the text
the timer carried. -/
def hide_info (s : Model) (message : String) : Model :=
  if s.message = message then { s with message := "" } else s

/-- `hide_colored_message` (`mod.rs`): like `hide_info` but also resets the
status-bar colours. -/
def hide_colored_message (s : Model) (message : String) : Model :=
  if s.message = message then { s with message := "", color := .normal } else s

/-- `info` (`mod.rs`): show the message, reset colours, and schedule a
single-shot timer carrying a copy of the message that will send `HideInfo`. -/
def info (s : Model) (message : String) : Model × Msg :=
  ({ s with message := message, color := .normal }, .HideInfo message)

/-- `warning` (`mod.rs`): show the message in orange and schedule a timer
sending `HideColoredMessage` with a copy of the message. -/
def warning (s : Model) (message : String) : Model × Msg :=
  ({ s with message := message, color := .orange }, .HideColoredMessage message)

/-- Modelled from the spec: the display string of an error kind (the `Display`
implementations live in the collaborator crates); a plain `Msg` kind displays
as its message. -/
def displayKind : ErrKind → String
  | .msg m => m
  | .parse _ => "parse error"
  | .other d => d

/-- `error` (`mod.rs`): the error sink.  Shows the error text, hides the entry,
colours the status bar red, and (as an effect) logs/forwards the full chained
error. -/
def errorSink (s : Model) (e : MgError) : Model × List Event :=
  ({ s with message := displayKind e.kind, entry_shown := false, color := .red },
   [.emitError e])

/-- `show_parse_error` (`mod.rs` 807-830 and `command.rs` 218-241, identical):
classify a parse error into a user-facing message chained onto the original
error, suppressing `NoCommand` entirely (`return` before the sink is reached).
`none` means the error sink is not called at all. -/
def show_parse_error (error : MgError) : Option MgError :=
  match error.kind with
  | .parse pe =>
    match pe.typ with
    | .MissingArgument => some (with_chain error (.msg "Argument required"))
    | .NoCommand => none
    | .Parse =>
      some (with_chain error
        (.msg ("Parse error: unexpected " ++ pe.unexpected ++ ", expecting: " ++ pe.expected)))
    | .UnknownCommand =>
      some (with_chain error (.msg ("Not a command: " ++ pe.unexpected)))
  | _ => some error

/-- `show_parse_error` followed by the call to the error sink when it is not
suppressed: the state effect of the whole function. -/
def show_parse_error_step (s : Model) (error : MgError) : Model × List Event :=
  match show_parse_error error with
  | some chained => errorSink s chained
  | none => (s, [])

/-- The characters of the literal marker `"<Enter>"`. -/
def enterMarker : List Char := ['<', 'E', 'n', 't', 'e', 'r', '>']

/-- The model of `action.find("<Enter>")` plus the two slices taken around it:
split the character list at the first occurrence of `enterMarker`, returning
the text before it and the text after it, or `none` when the marker does not
occur. -/
def splitAtMarker : List Char → Option (List Char × List Char)
  | [] => none
  | c :: rest =>
    if enterMarker.isPrefixOf (c :: rest) then
      some ([], (c :: rest).drop enterMarker.length)
    else
      match splitAtMarker rest with
      | some (pre, post) => some (c :: pre, post)
      | none => none

/-- `action_to_command` (`mod.rs` 613-626 and `command.rs` 79-91, identical):
an action starting with the literal `':'` is a `Complete` command up to the
first `"<Enter>"` marker, or an `Incomplete` command of everything after the
`':'` when there is no marker; anything else is a `Complete` command of the
whole action.  (The function reads `':'` literally; it does not consult the
current command identifier.) -/
def action_to_command (action : Action) : ShortcutCommand :=
  match action with
  | c :: rest =>
    if c = ':' then
      match splitAtMarker rest with
      | some (pre, _) => .Complete pre
      | none => .Incomplete rest
    else
      .Complete action
  | [] => .Complete action

/-- Look a key sequence up in the table of one mode:
`mappings.get(mode).and_then(|m| m.get(keys))`. -/
def lookupMapping (mappings : Mappings) (mode : ModeName) (keys : List Key) : Option Action :=
  (alistGet mappings mode).bind fun mm => alistGet mm keys

/-- The mode whose table `handle_shortcut` consults for the exact match: the
input modes collapse onto the command mode. -/
def lookupMode (mode : ModeName) : ModeName :=
  if mode = INPUT_MODE ∨ mode = BLOCKING_INPUT_MODE then COMMAND_MODE else mode

/-- `no_possible_shortcut` (`shortcut.rs` 122-131): true when no bound key
sequence of the *current* mode's own table (the mode is not collapsed here)
extends the current shortcut buffer. -/
def no_possible_shortcut (s : Model) : Bool :=
  match alistGet s.mappings s.current_mode with
  | some mappings => mappings.all fun p => !(s.current_shortcut.isPrefixOf p.1)
  | none => true

/-- `input_command` (`mod.rs` 735-750): switch to command mode and show the
entry; the variable substitution and the text pushed into the status-bar entry
widget live on the widget surface and are not part of this state. -/
def input_command (s : Model) (_command : Action) : Model :=
  show_entry (set_mode s COMMAND_MODE)

/-- `handle_shortcut` (`shortcut.rs` 72-119).  The hand-off of a resolved
action (`handle_command(Some(command))` for `Complete`, the entry pre-fill for
`Incomplete`) crosses into the command-line parser and dispatcher; the hand-off
itself is recorded as a `dispatch` event, and none of the code it reaches
(`handle_command`, `execute_commands`, `call_command`) touches the shortcut
buffer. -/
def handle_shortcut (s : Model) (ev : KeyEvent) : Step :=
  let keyval := ev.keyval
  let should_inhibit : Bool :=
    decide (s.current_mode = NORMAL_MODE) ||
    (decide (s.current_mode = COMMAND_MODE) &&
      (decide (keyval = Keyval.tab) || decide (keyval = Keyval.isoLeftTab))) ||
    decide (keyval = Keyval.escape)
  let control_pressed := ev.ctrl
  if s.entry_shown = false ∨ control_pressed = true ∨ keyval = Keyval.tab ∨
      keyval = Keyval.isoLeftTab then
    match gdk_key_to_key keyval control_pressed with
    | some key =>
      let s1 := add_to_shortcut s key
      let action := lookupMapping s1.mappings (lookupMode s1.current_mode) s1.current_shortcut
      match action with
      | some action =>
        let s2 := if s1.entry_shown = false then reset s1 else s1
        let s3 := clear_shortcut s2
        match action_to_command action with
        | .Complete command =>
          ⟨s3, [.dispatch (.Complete command)], none, should_inhibit⟩
        | .Incomplete command =>
          ⟨input_command s3 command, [.dispatch (.Incomplete command)], none, true⟩
      | none =>
        if no_possible_shortcut s1 then
          let s2 := if s1.entry_shown = false then reset s1 else s1
          ⟨clear_shortcut s2, [], none, should_inhibit⟩
        else
          ⟨s1, [], none, should_inhibit⟩
    | none => ⟨s, [], none, should_inhibit⟩
  else
    ⟨s, [], none, should_inhibit⟩

/-- `set_dialog_answer` (`mod.rs` 487-505): in blocking-input mode record the
answer and quit the nested loop; otherwise, with a pending callback, invoke it
(through a shared borrow, so the slot still holds it at call time), clear the
choices, and ask for the reset; the callback slot is cleared after the
if-else in every case. -/
def set_dialog_answer (s : Model) (answer : String) : Out :=
  if s.current_mode = BLOCKING_INPUT_MODE then
    ⟨{ s with answer := some answer, input_callback := none }, [.mainQuit], none⟩
  else
    match s.input_callback with
    | some cb =>
      ⟨{ s with choices := [], input_callback := none },
       [.invokeCallback cb (some answer) (some cb)], some .EnterNormalModeAndReset⟩
    | none => ⟨{ s with input_callback := none }, [], none⟩

/-- The result of `handle_input_shortcut` (`shortcut.rs` 57-69): the state and
effects plus whether the key hit the input-shortcut map.  The `Option<Msg>`
produced by the inner `set_dialog_answer` is discarded at its call site. -/
structure InputShortcutResult where
  model : Model
  events : List Event
  handled : Bool
deriving DecidableEq, Repr

/-- `handle_input_shortcut` (`shortcut.rs` 57-69): if the converted key is in
the `shortcuts` map, deliver the mapped answer through `set_dialog_answer` and
report the key as handled. -/
def handle_input_shortcut (s : Model) (ev : KeyEvent) : InputShortcutResult :=
  match gdk_key_to_key ev.keyval ev.ctrl with
  | some key =>
    match alistGet s.shortcuts key with
    | some answer =>
      let o := set_dialog_answer s answer
      ⟨{ o.model with shortcut_pressed := true }, o.events, true⟩
    | none => ⟨s, [], false⟩
  | none => ⟨s, [], false⟩

/-- `input_key_press` (`mod.rs` 349-371): Escape invokes a pending callback
with no answer (through a shared borrow) and clears it, returning
`EnterNormalModeAndReset`; any other key first tries the input-shortcut map,
then the `choices` set (a printable character in `choices` is delivered as a
one-character answer), and otherwise falls through to `handle_shortcut`.
Named keys other than Escape carry key codes outside the range of accepted
choice characters, so only character key values are checked against
`choices`. -/
def input_key_press (s : Model) (ev : KeyEvent) : Step :=
  match ev.keyval with
  | .escape =>
    match s.input_callback with
    | some cb =>
      ⟨{ s with input_callback := none }, [.invokeCallback cb none (some cb)],
       some .EnterNormalModeAndReset, false⟩
    | none => ⟨{ s with input_callback := none }, [], some .EnterNormalModeAndReset, false⟩
  | _ =>
    let r := handle_input_shortcut s ev
    if r.handled then
      ⟨r.model, r.events, none, true⟩
    else
      match ev.keyval with
      | .char c =>
        if c ∈ s.choices then
          let o := set_dialog_answer s (String.mk [c])
          ⟨o.model, o.events, o.msg, true⟩
        else
          handle_shortcut s ev
      | _ => handle_shortcut s ev

/-- `handle_command` (`mod.rs` 305-316 and `command.rs` 192-204): with the
default `':'` identifier the text goes through `parse_line` (a collaborator)
into `execute_commands`, which, when `activated`, ends in
`return_to_normal_mode`; the parsed commands and errors themselves are the
parser's output and their execution is recorded as the `commandLine` event.
With another identifier the text goes to `COMM::identifier_to_command`
(a collaborator), recorded as the `specialCommand` event; the
success-dependent `return_to_normal_mode` of that path is collaborator-driven
and elided here. -/
def handle_command (s : Model) (command : Option String) (activated : Bool) : Out :=
  match command with
  | some command =>
    if s.current_command_mode = ':' then
      ⟨if activated then return_to_normal_mode s else s, [.commandLine command], none⟩
    else
      ⟨s, [.specialCommand s.current_command_mode command], none⟩
  | none => ⟨s, [], none⟩

/-- `command_activate` (`command.rs` 153-176): in an input mode, `take()` the
pending callback — clearing the slot *before* the call, so a re-entrant reader
observes `none` — invoke it with the answer, then clear the choices and reset;
outside the input modes the text is an activated command line. -/
def command_activate (s : Model) (input : Option String) : Out :=
  if s.current_mode = INPUT_MODE ∨ s.current_mode = BLOCKING_INPUT_MODE then
    match s.input_callback with
    | some cb =>
      ⟨{ s with answer := input, input_callback := none, choices := [] },
       [.invokeCallback cb input none], some .EnterNormalModeAndReset⟩
    | none => ⟨{ s with choices := [] }, [], none⟩
  else
    handle_command s input true

/-- `command_activate` (`mod.rs` 171-193): the widget variant of the same
handler; the pending callback is invoked through a shared borrow
(`if let Some(ref callback)`), so the slot still holds it at call time, and is
only set to `None` afterwards. -/
def command_activate_v0 (s : Model) (input : Option String) : Out :=
  if s.current_mode = INPUT_MODE ∨ s.current_mode = BLOCKING_INPUT_MODE then
    match s.input_callback with
    | some cb =>
      ⟨{ s with answer := input, input_callback := none, choices := [] },
       [.invokeCallback cb input (some cb)], some .EnterNormalModeAndReset⟩
    | none => ⟨{ s with input_callback := none, choices := [] }, [], none⟩
  else
    handle_command s input true

/-- `update` (`mod.rs` 526-554), restricted to the messages the model sends to
itself.  `EnterNormalModeAndReset` performs `return_to_normal_mode`, `reset`
and `clear_shortcut` in that order. -/
def update (s : Model) : Msg → Model
  | .EnterNormalModeAndReset => clear_shortcut (reset (return_to_normal_mode s))
  | .HideColoredMessage message => hide_colored_message s message
  | .HideInfo message => hide_info s message

/-- Apply a handler's returned message, if any, through `update`. -/
def applyMsg (s : Model) : Option Msg → Model
  | some m => update s m
  | none => s

/-- `mg_settings::Command`, the typed command enum received by the dispatcher.
The generic custom payload is summarised by a string. -/
inductive Command where
  | App (command : String)
  | Custom (payload : String)
  | Map (action : Action) (keys : List Key) (mode : String)
  | Set (name : String) (value : String)
  | Unmap (keys : List Key) (mode : String)
deriving DecidableEq, Repr

/-- `app_command` (`mod.rs` 634-672 / `command.rs` 94-118): a name in the fixed
registry drives a completion/entry widget operation (widget-only, no model
state); any other name hits `unreachable!()`, modelled as `none`. -/
def app_command (s : Model) (command : String) : Option (Model × List Event) :=
  if command ∈ application_commands then some (s, []) else none

/-- `call_command` (`mod.rs` 675-704 / `command.rs` 121-150, identical).
`to_variant` stands for the settings collaborator `SETT::to_variant` (success
or failure of the coercion).  `Map`/`Unmap` index the mode registry with
`self.model.modes[mode.as_str()]`, which panics when the prefix is not
registered: the panic is modelled as `none`.  The `entry(..).or_insert_with`
op materialises the (possibly empty) per-mode table before mutating it. -/
def call_command (to_variant : String → String → Bool) (s : Model) (command : Command) :
    Option (Model × List Event) :=
  match command with
  | .App command => app_command s command
  | .Custom payload => some (s, [.emitCustom payload])
  | .Map action keys mode =>
    match alistGet s.modes mode with
    | some modeName =>
      let mode_mappings := (alistGet s.mappings modeName).getD []
      some ({ s with mappings :=
                alistInsert s.mappings modeName (alistInsert mode_mappings keys action) }, [])
    | none => none
  | .Set name value =>
    if to_variant name value then
      some (return_to_normal_mode s, [.settingChanged name value])
    else
      let chained := with_chain ⟨.other "setting value coercion failed", []⟩
        (.msg "Error setting value")
      let r := errorSink s chained
      some (return_to_normal_mode r.1, r.2)
  | .Unmap keys mode =>
    match alistGet s.modes mode with
    | some modeName =>
      let mode_mappings := (alistGet s.mappings modeName).getD []
      some ({ s with mappings :=
                alistInsert s.mappings modeName (alistRemove mode_mappings keys) }, [])
    | none => none

/-- Press a list of logical keys one by one through `handle_shortcut`,
collecting the emitted events. -/
def pressKeys (s : Model) (keys : List Key) : Model × List Event :=
  match keys with
  | [] => (s, [])
  | k :: rest =>
    let st := handle_shortcut s (eventFor k)
    let r := pressKeys st.model rest
    (r.1, st.events ++ r.2)

/-- True for the events that deliver an answer to a pending input request
(callback invocation, or recording the answer and releasing the blocking
loop). -/
def delivers : Event → Bool
  | .invokeCallback _ _ _ => true
  | .mainQuit => true
  | _ => false

def keyG : Key := Key.char 'g'

def keyA : Key := Key.char 'a'

def keyB : Key := Key.char 'b'

/-- Normal-mode table binding both `g` and `gg`. -/
def cexMappingsC2 : ModeMappings := [([keyG], ['a']), ([keyG, keyG], ['b'])]

def cexModelC2 : Model := { initialModel [] with mappings := [(NORMAL_MODE, cexMappingsC2)] }

def witMappingsC2 : ModeMappings := [([keyG, keyG], "go-top".toList)]

def witModelC2 : Model := { initialModel [] with mappings := [(NORMAL_MODE, witMappingsC2)] }

/-- A table binding only the two-key sequence `ab`. -/
def cexMappingsC3 : ModeMappings := [([keyA, keyB], ['x'])]

/-- Command mode with the entry visible and `ab` bound. -/
def cexModelC3 : Model :=
  { initialModel [] with
      current_mode := COMMAND_MODE
      entry_shown := true
      mappings := [(COMMAND_MODE, cexMappingsC3)] }

def witModelC3 : Model := { initialModel [] with mappings := [(NORMAL_MODE, cexMappingsC3)] }

/-- Input mode with a pending callback. -/
def cexModelC1 : Model :=
  { initialModel [] with current_mode := INPUT_MODE, input_callback := some 7 }

/-- Input mode with a pending callback and a `{y, n}` choices set. -/
def cexModelC5 : Model :=
  { initialModel [] with
      current_mode := INPUT_MODE
      input_callback := some 3
      choices := ['y', 'n'] }

/-- Input mode with a pending callback, a `{y, n}` choices set and no
registered input shortcuts. -/
def witModelC6 : Model :=
  { initialModel [] with
      current_mode := INPUT_MODE
      input_callback := some 1
      choices := ['y', 'n'] }

/-- The prefix `n` registered for normal mode, with `q` and `ww` bound there. -/
def witModelC7 : Model :=
  { initialModel [("n", NORMAL_MODE)] with
      mappings := [(NORMAL_MODE,
        [([Key.char 'q'], ['x']), ([Key.char 'w', Key.char 'w'], ['y'])])] }

/-- The state and events after `unmap nq` on `witModelC7`. -/
def witResultC7 : Model × List Event :=
  (call_command (fun _ _ => true) witModelC7 (.Unmap [Key.char 'q'] "n")).getD (witModelC7, [])

@[simp] theorem set_mode_current_mode (s : Model) (m : ModeName) :
    (set_mode s m).current_mode = m := by
  simp only [set_mode]; split <;> rfl

@[simp] theorem set_mode_current_shortcut (s : Model) (m : ModeName) :
    (set_mode s m).current_shortcut = s.current_shortcut := by
  simp only [set_mode]; split <;> rfl

@[simp] theorem set_mode_input_callback (s : Model) (m : ModeName) :
    (set_mode s m).input_callback = s.input_callback := by
  simp only [set_mode]; split <;> rfl

@[simp] theorem set_mode_choices (s : Model) (m : ModeName) :
    (set_mode s m).choices = s.choices := by
  simp only [set_mode]; split <;> rfl

@[simp] theorem set_mode_entry_shown (s : Model) (m : ModeName) :
    (set_mode s m).entry_shown = s.entry_shown := by
  simp only [set_mode]; split <;> rfl

@[simp] theorem set_mode_mappings (s : Model) (m : ModeName) :
    (set_mode s m).mappings = s.mappings := by
  simp only [set_mode]; split <;> rfl

@[simp] theorem set_mode_answer (s : Model) (m : ModeName) :
    (set_mode s m).answer = s.answer := by
  simp only [set_mode]; split <;> rfl

@[simp] theorem set_mode_message (s : Model) (m : ModeName) :
    (set_mode s m).message = s.message := by
  simp only [set_mode]; split <;> rfl

@[simp] theorem set_mode_shortcuts (s : Model) (m : ModeName) :
    (set_mode s m).shortcuts = s.shortcuts := by
  simp only [set_mode]; split <;> rfl

@[simp] theorem set_mode_modes (s : Model) (m : ModeName) :
    (set_mode s m).modes = s.modes := by
  simp only [set_mode]; split <;> rfl

theorem alistGet_insert_self {α β : Type} [DecidableEq α] (l : List (α × β)) (k : α) (v : β) :
    alistGet (alistInsert l k v) k = some v := by
  induction l with
  | nil => simp [alistInsert, alistGet]
  | cons p rest ih =>
    by_cases h : p.1 = k
    · simp [alistInsert, h, alistGet]
    · simp [alistInsert, h, alistGet, ih]

theorem alistGet_insert_ne {α β : Type} [DecidableEq α] (l : List (α × β)) (k k' : α) (v : β)
    (h : k' ≠ k) : alistGet (alistInsert l k v) k' = alistGet l k' := by
  induction l with
  | nil =>
    simp only [alistInsert, alistGet]
    rw [if_neg (fun hh => h hh.symm)]
  | cons p rest ih =>
    by_cases hp : p.1 = k
    · simp only [alistInsert, if_pos hp, alistGet]
      rw [if_neg (fun hh => h hh.symm), if_neg (by rw [hp]; exact fun hh => h hh.symm)]
    · simp only [alistInsert, if_neg hp, alistGet, ih]

theorem alistGet_remove_self {α β : Type} [DecidableEq α] (l : List (α × β)) (k : α) :
    alistGet (alistRemove l k) k = none := by
  induction l with
  | nil => simp [alistRemove, alistGet]
  | cons p rest ih =>
    by_cases hp : p.1 = k
    · simp [alistRemove, hp, ih]
    · simp [alistRemove, hp, alistGet, ih]

theorem alistGet_remove_ne {α β : Type} [DecidableEq α] (l : List (α × β)) (k k' : α)
    (h : k' ≠ k) : alistGet (alistRemove l k) k' = alistGet l k' := by
  induction l with
  | nil => simp [alistRemove]
  | cons p rest ih =>
    by_cases hp : p.1 = k
    · rw [alistRemove]
      simp only [if_pos hp, ih, alistGet]
      rw [if_neg (by rw [hp]; exact fun hh => h hh.symm)]
    · rw [alistRemove]
      simp only [if_neg hp, alistGet, ih]

theorem alistGet_mem {α β : Type} [DecidableEq α] (l : List (α × β)) (k : α) (v : β)
    (h : alistGet l k = some v) : (k, v) ∈ l := by
  induction l with
  | nil => simp [alistGet] at h
  | cons p rest ih =>
    rw [alistGet] at h
    by_cases hp : p.1 = k
    · rw [if_pos hp] at h
      have : p = (k, v) := by
        cases p
        simp_all
      rw [this] at *
      exact List.mem_cons_self _ _
    · rw [if_neg hp] at h
      exact List.mem_cons_of_mem _ (ih h)

theorem gdk_key_to_key_eventFor (k : Key) :
    gdk_key_to_key (eventFor k).keyval (eventFor k).ctrl = some k := by
  cases k <;> rfl

theorem lookupMode_eq_self (m : ModeName) (h1 : m ≠ INPUT_MODE) (h2 : m ≠ BLOCKING_INPUT_MODE) :
    lookupMode m = m := by
  simp [lookupMode, h1, h2]

theorem splitAtMarker_marker_append (post : List Char) :
    splitAtMarker (enterMarker ++ post) = some ([], post) := by
  have hp : enterMarker.isPrefixOf (enterMarker ++ post) = true :=
    List.isPrefixOf_iff_prefix.mpr (List.prefix_append _ _)
  have hsh : enterMarker ++ post = '<' :: (['E', 'n', 't', 'e', 'r', '>'] ++ post) := rfl
  rw [hsh, splitAtMarker, ← hsh, hp]
  simp [List.drop_left]

theorem splitAtMarker_append (pre post : List Char)
    (h : ∀ i, i < pre.length → ¬ enterMarker <+: (pre ++ enterMarker ++ post).drop i) :
    splitAtMarker (pre ++ enterMarker ++ post) = some (pre, post) := by
  induction pre with
  | nil => simpa using splitAtMarker_marker_append post
  | cons c rest ih =>
    have hsh : (c :: rest) ++ enterMarker ++ post = c :: (rest ++ enterMarker ++ post) := by
      simp
    have h0 : ¬ enterMarker.isPrefixOf (c :: (rest ++ enterMarker ++ post)) = true := by
      rw [List.isPrefixOf_iff_prefix]
      have := h 0 (by simp)
      simpa [hsh] using this
    have hrest : ∀ i, i < rest.length →
        ¬ enterMarker <+: (rest ++ enterMarker ++ post).drop i := by
      intro i hi
      have := h (i + 1) (by simpa using Nat.succ_lt_succ hi)
      simpa [hsh] using this
    rw [hsh, splitAtMarker, if_neg h0, ih hrest]

theorem splitAtMarker_eq_none (l : List Char)
    (h : ∀ i, i ≤ l.length → ¬ enterMarker <+: l.drop i) :
    splitAtMarker l = none := by
  induction l with
  | nil => rfl
  | cons c rest ih =>
    have h0 : ¬ enterMarker.isPrefixOf (c :: rest) = true := by
      rw [List.isPrefixOf_iff_prefix]
      simpa using h 0 (by simp)
    have hrest : ∀ i, i ≤ rest.length → ¬ enterMarker <+: rest.drop i := by
      intro i hi
      simpa using h (i + 1) (by simpa using Nat.succ_le_succ hi)
    rw [splitAtMarker, if_neg h0, ih hrest]

/-- C4: `action_to_command` maps an action whose first character is the command
identifier `':'` and which contains the literal marker `"<Enter>"` to
`Complete` of the text strictly between the identifier and the first marker
occurrence; an identifier-prefixed action without the marker to `Incomplete`
of the remaining text; and an action not starting with the identifier to
`Complete` of the whole action. -/
theorem action_to_command_spec (pre post rest action : List Char) :
    ((∀ i, i < pre.length → ¬ enterMarker <+: (pre ++ enterMarker ++ post).drop i) →
      action_to_command (':' :: (pre ++ enterMarker ++ post)) = .Complete pre) ∧
    ((∀ i, i ≤ rest.length → ¬ enterMarker <+: rest.drop i) →
      action_to_command (':' :: rest) = .Incomplete rest) ∧
    (action.head? ≠ some ':' → action_to_command action = .Complete action) := by
  refine ⟨fun h => ?_, fun h => ?_, fun h => ?_⟩
  · rw [action_to_command, if_pos rfl, splitAtMarker_append pre post h]
  · rw [action_to_command, if_pos rfl, splitAtMarker_eq_none rest h]
  · cases action with
    | nil => rfl
    | cons c rest2 =>
      have hc : ¬ c = ':' := by simpa using h
      rw [action_to_command, if_neg hc]

/-- Witness for C4: the round-trip examples from the claim, obtained from
`action_to_command_spec` at concrete inputs. -/
theorem action_to_command_spec_witness :
    action_to_command (':' :: ("quit".toList ++ enterMarker ++ [])) =
      .Complete "quit".toList ∧
    action_to_command (':' :: "e ".toList) = .Incomplete "e ".toList ∧
    action_to_command "go-top".toList = .Complete "go-top".toList := by
  refine ⟨?_, ?_, ?_⟩
  · exact (action_to_command_spec "quit".toList [] [] []).1 (by decide)
  · exact (action_to_command_spec [] [] "e ".toList []).2.1 (by decide)
  · exact (action_to_command_spec [] [] [] "go-top".toList).2.2 (by decide)

/-- A single `handle_shortcut` step on the dead-end-free accumulation path:
entry hidden, no exact match for the extended buffer, but some bound sequence
of the current mode's own table extends it — the key is appended, nothing is
dispatched, nothing else changes. -/
theorem handle_shortcut_accumulate (s : Model) (k : Key) (mm : ModeMappings)
    (t : List Key) (a : Action)
    (hentry : s.entry_shown = false)
    (hmode1 : s.current_mode ≠ INPUT_MODE) (hmode2 : s.current_mode ≠ BLOCKING_INPUT_MODE)
    (hmm : alistGet s.mappings s.current_mode = some mm)
    (hnone : alistGet mm (s.current_shortcut ++ [k]) = none)
    (hmem : (t, a) ∈ mm)
    (hext : (s.current_shortcut ++ [k]) <+: t) :
    (handle_shortcut s (eventFor k)).model =
      { s with current_shortcut := s.current_shortcut ++ [k] } ∧
    (handle_shortcut s (eventFor k)).events = [] ∧
    (handle_shortcut s (eventFor k)).msg = none := by
  have hconv := gdk_key_to_key_eventFor k
  have hguard : s.entry_shown = false ∨ (eventFor k).ctrl = true ∨
      (eventFor k).keyval = Keyval.tab ∨ (eventFor k).keyval = Keyval.isoLeftTab :=
    Or.inl hentry
  have hlm := lookupMode_eq_self s.current_mode hmode1 hmode2
  have hlook : lookupMapping (add_to_shortcut s k).mappings
      (lookupMode (add_to_shortcut s k).current_mode)
      (add_to_shortcut s k).current_shortcut = none := by
    simp [add_to_shortcut, lookupMapping, hlm, hmm, hnone]
  have hPt : (s.current_shortcut ++ [k]).isPrefixOf t = true :=
    List.isPrefixOf_iff_prefix.mpr hext
  have hnps : no_possible_shortcut (add_to_shortcut s k) = false := by
    simp only [no_possible_shortcut, add_to_shortcut]
    rw [hmm]
    cases hB : mm.all fun p => !((s.current_shortcut ++ [k]).isPrefixOf p.1) with
    | false => simpa using hB
    | true =>
      exfalso
      have := (List.all_eq_true.mp hB) (t, a) hmem
      simp [hPt] at this
  simp only [handle_shortcut]
  rw [if_pos hguard]
  simp only [hconv, hlook, hnps]
  simp [add_to_shortcut]

/-- A single `handle_shortcut` step on the resolution path: entry hidden and
the extended buffer exactly bound under the effective lookup mode — the action
is interpreted by `action_to_command` and handed over exactly once, and the
buffer is cleared. -/
theorem handle_shortcut_resolve (s : Model) (k : Key) (action : Action)
    (hentry : s.entry_shown = false)
    (hlook : lookupMapping s.mappings (lookupMode s.current_mode)
      (s.current_shortcut ++ [k]) = some action) :
    (handle_shortcut s (eventFor k)).events = [.dispatch (action_to_command action)] ∧
    (handle_shortcut s (eventFor k)).model.current_shortcut = [] ∧
    (handle_shortcut s (eventFor k)).msg = none := by
  have hconv := gdk_key_to_key_eventFor k
  have hguard : s.entry_shown = false ∨ (eventFor k).ctrl = true ∨
      (eventFor k).keyval = Keyval.tab ∨ (eventFor k).keyval = Keyval.isoLeftTab :=
    Or.inl hentry
  have hlook2 : lookupMapping (add_to_shortcut s k).mappings
      (lookupMode (add_to_shortcut s k).current_mode)
      (add_to_shortcut s k).current_shortcut = some action := by
    simp [add_to_shortcut, hlook]
  simp only [handle_shortcut]
  rw [if_pos hguard]
  simp only [hconv, hlook2]
  rcases hA : action_to_command action with c | c <;>
    simp [hA, clear_shortcut, reset, add_to_shortcut, input_command, show_entry, hentry]

/-- Pressing the suffix of a bound sequence from a state whose buffer holds the
matching prefix: every strict nonempty prefix of the sequence being unbound,
the presses accumulate and the final key dispatches the bound action exactly
once, leaving the buffer empty. -/
theorem pressKeys_resolve (mm : ModeMappings) (keys : List Key) (action : Action)
    (hbound : alistGet mm keys = some action)
    (hpref : ∀ n, n < keys.length → 0 < n → alistGet mm (keys.take n) = none) :
    ∀ (suf : List Key) (s : Model) (pre : List Key),
      suf ≠ [] →
      pre ++ suf = keys →
      s.entry_shown = false →
      s.current_mode ≠ INPUT_MODE → s.current_mode ≠ BLOCKING_INPUT_MODE →
      alistGet s.mappings s.current_mode = some mm →
      s.current_shortcut = pre →
      (pressKeys s suf).2 = [Event.dispatch (action_to_command action)] ∧
      (pressKeys s suf).1.current_shortcut = [] := by
  intro suf
  induction suf with
  | nil => intro s pre hne; exact absurd rfl hne
  | cons k rest ih =>
    intro s pre _ hfull hentry hm1 hm2 hmm hbuf
    cases rest with
    | nil =>
      have hl : lookupMapping s.mappings (lookupMode s.current_mode)
          (s.current_shortcut ++ [k]) = some action := by
        rw [hbuf, lookupMode_eq_self _ hm1 hm2]
        simp only [lookupMapping]
        rw [hmm]
        simp only [Option.some_bind]
        rw [hfull, hbound]
      have hres := handle_shortcut_resolve s k action hentry hl
      simp [pressKeys, hres.1, hres.2.1]
    | cons k2 rest2 =>
      have hp : (pre ++ [k]) <+: keys := by
        rw [← hfull]; exact ⟨k2 :: rest2, by simp⟩
      have hstrict : pre ++ [k] = keys.take (pre.length + 1) := by
        have := List.prefix_iff_eq_take.mp hp
        simpa using this
      have hlen : pre.length + 1 < keys.length := by
        rw [← hfull]; simp
      have hnone : alistGet mm (s.current_shortcut ++ [k]) = none := by
        rw [hbuf, hstrict]
        exact hpref _ hlen (by omega)
      have hmem : (keys, action) ∈ mm := alistGet_mem mm keys action hbound
      have hext : (s.current_shortcut ++ [k]) <+: keys := by
        rw [hbuf]; exact hp
      have hacc := handle_shortcut_accumulate s k mm keys action hentry hm1 hm2 hmm
        hnone hmem hext
      have hih := ih { s with current_shortcut := pre ++ [k] } (pre ++ [k])
        (by simp) (by simpa using hfull) hentry hm1 hm2 hmm rfl
      rw [hbuf] at hacc
      simp only [pressKeys]
      rw [hacc.1, hacc.2.1]
      simpa using hih

/-- C2 (amended): in a mode other than Input/BlockingInput, with the entry
hidden, an empty buffer, `keys ↦ action` bound in the mode's table and no
strict nonempty prefix of `keys` itself bound, pressing exactly the keys of
the sequence hands the interpreted action over exactly once and leaves the
shortcut buffer empty. -/
theorem bound_sequence_dispatches_once (s : Model) (mm : ModeMappings) (keys : List Key)
    (action : Action)
    (hne : keys ≠ [])
    (hentry : s.entry_shown = false)
    (hbuf : s.current_shortcut = [])
    (hm1 : s.current_mode ≠ INPUT_MODE) (hm2 : s.current_mode ≠ BLOCKING_INPUT_MODE)
    (hmm : alistGet s.mappings s.current_mode = some mm)
    (hbound : alistGet mm keys = some action)
    (hpref : ∀ n, n < keys.length → 0 < n → alistGet mm (keys.take n) = none) :
    (pressKeys s keys).2 = [Event.dispatch (action_to_command action)] ∧
    (pressKeys s keys).1.current_shortcut = [] :=
  pressKeys_resolve mm keys action hbound hpref keys s [] hne (by simp) hentry hm1 hm2 hmm hbuf

/-- C2 (counterexample): with `g ↦ "a"` and `gg ↦ "b"` both bound in normal
mode, pressing exactly `g`, `g` from an empty buffer with the entry hidden
hands an action over twice — and never the action bound to `gg` — refuting
"dispatches the resulting command exactly once" as stated. -/
theorem bound_sequence_double_dispatch_cex :
    alistGet cexMappingsC2 [keyG, keyG] = some ['b'] ∧
    cexModelC2.current_shortcut = [] ∧ cexModelC2.entry_shown = false ∧
    cexModelC2.current_mode = NORMAL_MODE ∧
    alistGet cexModelC2.mappings cexModelC2.current_mode = some cexMappingsC2 ∧
    (pressKeys cexModelC2 [keyG, keyG]).2 =
      [Event.dispatch (ShortcutCommand.Complete ['a']),
       Event.dispatch (ShortcutCommand.Complete ['a'])] ∧
    (pressKeys cexModelC2 [keyG, keyG]).2 ≠
      [Event.dispatch (action_to_command ['b'])] := by
  decide

/-- Witness for C2: `gg ↦ "go-top"` in normal mode resolves to a single
dispatch of `Complete "go-top"` with an empty buffer afterwards. -/
theorem bound_sequence_dispatches_once_witness :
    (pressKeys witModelC2 [keyG, keyG]).2 =
      [Event.dispatch (ShortcutCommand.Complete "go-top".toList)] ∧
    (pressKeys witModelC2 [keyG, keyG]).1.current_shortcut = [] := by
  have h := bound_sequence_dispatches_once witModelC2 witMappingsC2 [keyG, keyG]
    "go-top".toList (by decide) rfl rfl (by decide) (by decide) (by decide) (by decide)
    (by decide)
  exact ⟨h.1.trans (by decide), h.2⟩

/-- C3 (amended): in a mode other than Input/BlockingInput whose own table the
matcher therefore consults for both checks, with the entry hidden, a key
extending the buffer to a sequence with no exact binding but which is a strict
prefix of some bound sequence leaves the buffer exactly equal to the extended
sequence and dispatches nothing (the whole state is otherwise unchanged). -/
theorem strict_prefix_keeps_buffer (s : Model) (mm : ModeMappings) (k : Key)
    (t : List Key) (a : Action)
    (hentry : s.entry_shown = false)
    (hm1 : s.current_mode ≠ INPUT_MODE) (hm2 : s.current_mode ≠ BLOCKING_INPUT_MODE)
    (hmm : alistGet s.mappings s.current_mode = some mm)
    (hnone : alistGet mm (s.current_shortcut ++ [k]) = none)
    (hmem : (t, a) ∈ mm)
    (hext : (s.current_shortcut ++ [k]) <+: t)
    (_hstrict : t ≠ s.current_shortcut ++ [k]) :
    (handle_shortcut s (eventFor k)).model =
      { s with current_shortcut := s.current_shortcut ++ [k] } ∧
    (handle_shortcut s (eventFor k)).events = [] := by
  have h := handle_shortcut_accumulate s k mm t a hentry hm1 hm2 hmm hnone hmem hext
  exact ⟨h.1, h.2.1⟩

/-- C3 (counterexample): in command mode with the entry visible, `ab` bound and
`a` not bound, processing the key `a` from an empty buffer leaves the buffer
empty — not equal to `[a]` — because a plain character is not accumulated
while the entry widget owns character input; this refutes the claim as
stated (which has no entry-visibility condition). -/
theorem strict_prefix_keeps_buffer_cex :
    alistGet cexMappingsC3 [keyA] = none ∧
    ([keyA, keyB], ['x']) ∈ cexMappingsC3 ∧
    ([keyA] <+: [keyA, keyB] ∧ [keyA] ≠ [keyA, keyB]) ∧
    alistGet cexModelC3.mappings cexModelC3.current_mode = some cexMappingsC3 ∧
    cexModelC3.current_shortcut = [] ∧
    (handle_shortcut cexModelC3 (eventFor keyA)).events = [] ∧
    (handle_shortcut cexModelC3 (eventFor keyA)).model.current_shortcut ≠ [keyA] := by
  decide

/-- Witness for C3: in normal mode with the entry hidden and `ab` bound,
processing `a` keeps the buffer at exactly `[a]` and dispatches nothing. -/
theorem strict_prefix_keeps_buffer_witness :
    (handle_shortcut witModelC3 (eventFor keyA)).model =
      { witModelC3 with current_shortcut := [keyA] } ∧
    (handle_shortcut witModelC3 (eventFor keyA)).events = [] := by
  have h := strict_prefix_keeps_buffer witModelC3 cexMappingsC3 keyA [keyA, keyB] ['x']
    rfl (by decide) (by decide) (by decide) (by decide) (by decide) (by decide) (by decide)
  exact h

/-- C1 (amended): delivering an answer in an input mode with a pending
callback invokes the callback exactly once and leaves the registry empty: the
`command.rs` `command_activate` takes the callback out *before* invoking it
(a re-entrant reader observes an empty slot at call time), while the `mod.rs`
`command_activate` invokes it while it is still stored and clears the slot
immediately afterwards, before the handler returns; both clear the choices
set. -/
theorem command_activate_at_most_once (s : Model) (cb : Nat) (input : Option String)
    (hmode : s.current_mode = INPUT_MODE ∨ s.current_mode = BLOCKING_INPUT_MODE)
    (hcb : s.input_callback = some cb) :
    ((command_activate s input).events = [Event.invokeCallback cb input none] ∧
     (command_activate s input).model.input_callback = none ∧
     (command_activate s input).model.choices = []) ∧
    ((command_activate_v0 s input).events = [Event.invokeCallback cb input (some cb)] ∧
     (command_activate_v0 s input).model.input_callback = none ∧
     (command_activate_v0 s input).model.choices = []) := by
  rcases hmode with h | h <;>
    simp [command_activate, command_activate_v0, h, hcb, INPUT_MODE, BLOCKING_INPUT_MODE]

/-- C1 (counterexample): in the `mod.rs` `command_activate`, delivering an
answer with a pending callback invokes the callback while the registry slot
still holds it (the invocation event records `some 7`, not `none`, as the
stored value observable at call time), refuting "cleared strictly before the
callback is invoked" as stated. -/
theorem command_activate_clears_after_cex :
    (command_activate_v0 cexModelC1 (some "ans")).events =
      [Event.invokeCallback 7 (some "ans") (some 7)] ∧
    ((command_activate_v0 cexModelC1 (some "ans")).events.all fun e =>
      match e with
      | Event.invokeCallback _ _ storedAtCall => storedAtCall.isNone
      | _ => true) = false := by
  decide

/-- Witness for C1: the `command.rs` variant at a concrete input-mode state
invokes the callback once with an empty slot observable at call time. -/
theorem command_activate_at_most_once_witness :
    (command_activate cexModelC1 (some "ans")).events =
      [Event.invokeCallback 7 (some "ans") none] ∧
    (command_activate cexModelC1 (some "ans")).model.input_callback = none := by
  have h := command_activate_at_most_once cexModelC1 7 (some "ans") (Or.inl rfl) rfl
  exact ⟨h.1.1, h.1.2.1⟩

/-- C5 (amended): every transition out of the input modes leaves the callback
absent, but only answer delivery and entry activation also clear the choices
set: Escape cancellation returns to normal mode with the callback cleared and
the choices set untouched. -/
theorem pending_request_cleared_on_exit (s : Model) (cb : Nat) (ctrl : Bool)
    (ans : String) (input : Option String) :
    (s.input_callback = some cb →
      (applyMsg (input_key_press s ⟨.escape, ctrl⟩).model
          (input_key_press s ⟨.escape, ctrl⟩).msg).input_callback = none ∧
      (applyMsg (input_key_press s ⟨.escape, ctrl⟩).model
          (input_key_press s ⟨.escape, ctrl⟩).msg).current_mode = NORMAL_MODE ∧
      (applyMsg (input_key_press s ⟨.escape, ctrl⟩).model
          (input_key_press s ⟨.escape, ctrl⟩).msg).choices = s.choices) ∧
    (s.current_mode = INPUT_MODE → s.input_callback = some cb →
      (applyMsg (set_dialog_answer s ans).model (set_dialog_answer s ans).msg).input_callback
          = none ∧
      (applyMsg (set_dialog_answer s ans).model (set_dialog_answer s ans).msg).choices = [] ∧
      (applyMsg (set_dialog_answer s ans).model (set_dialog_answer s ans).msg).current_mode
          = NORMAL_MODE) ∧
    ((s.current_mode = INPUT_MODE ∨ s.current_mode = BLOCKING_INPUT_MODE) →
      s.input_callback = some cb →
      (applyMsg (command_activate s input).model (command_activate s input).msg).input_callback
          = none ∧
      (applyMsg (command_activate s input).model (command_activate s input).msg).choices = [] ∧
      (applyMsg (command_activate s input).model (command_activate s input).msg).current_mode
          = NORMAL_MODE) := by
  refine ⟨fun hcb => ?_, fun hm hcb => ?_, fun hm hcb => ?_⟩
  · simp [input_key_press, hcb, applyMsg, update, clear_shortcut, reset,
      return_to_normal_mode, set_current_identifier, hide_entry_and_completion]
  · have hnb : s.current_mode ≠ BLOCKING_INPUT_MODE := by
      rw [hm]; simp [INPUT_MODE, BLOCKING_INPUT_MODE]
    simp [set_dialog_answer, hnb, hcb, applyMsg, update, clear_shortcut, reset,
      return_to_normal_mode, set_current_identifier, hide_entry_and_completion]
  · rcases hm with h | h <;>
      simp [command_activate, h, hcb, INPUT_MODE, BLOCKING_INPUT_MODE, applyMsg, update,
        clear_shortcut, reset, return_to_normal_mode, set_current_identifier,
        hide_entry_and_completion]

/-- C5 (counterexample): Escape in input mode with a pending request and
choices `{y, n}` reaches normal mode with the choices set still `{y, n}`,
refuting both the claimed invariant (choices empty outside the input modes)
and the claim that every exit transition clears both parts of the request. -/
theorem escape_leaves_choices_cex :
    (applyMsg (input_key_press cexModelC5 ⟨.escape, false⟩).model
        (input_key_press cexModelC5 ⟨.escape, false⟩).msg).current_mode = NORMAL_MODE ∧
    (applyMsg (input_key_press cexModelC5 ⟨.escape, false⟩).model
        (input_key_press cexModelC5 ⟨.escape, false⟩).msg).choices = ['y', 'n'] := by
  decide

/-- Witness for C5: answer delivery from a concrete input-mode state clears
both the callback and the choices set. -/
theorem pending_request_cleared_on_exit_witness :
    (applyMsg (set_dialog_answer cexModelC5 "y").model
        (set_dialog_answer cexModelC5 "y").msg).input_callback = none ∧
    (applyMsg (set_dialog_answer cexModelC5 "y").model
        (set_dialog_answer cexModelC5 "y").msg).choices = [] := by
  have h := (pending_request_cleared_on_exit cexModelC5 3 false "y" none).2.1 rfl rfl
  exact ⟨h.1, h.2.1⟩

/-- C6: in input mode with a pending callback, a printable key in the choices
set (and not bound as an input shortcut) delivers exactly the one-character
answer — before and instead of any generic shortcut handling — and the
request is consumed; a printable key neither in the choices set nor a
registered input shortcut delivers nothing and leaves the pending request
(callback and choices) unchanged. -/
theorem choices_check_priority (s : Model) (cb : Nat) (c : Char)
    (hmode : s.current_mode = INPUT_MODE)
    (hcb : s.input_callback = some cb)
    (hshort : alistGet s.shortcuts (Key.char c) = none) :
    (c ∈ s.choices →
      (input_key_press s ⟨.char c, false⟩).events =
        [Event.invokeCallback cb (some (String.mk [c])) (some cb)] ∧
      (applyMsg (input_key_press s ⟨.char c, false⟩).model
          (input_key_press s ⟨.char c, false⟩).msg).input_callback = none ∧
      (applyMsg (input_key_press s ⟨.char c, false⟩).model
          (input_key_press s ⟨.char c, false⟩).msg).choices = [] ∧
      (input_key_press s ⟨.char c, false⟩).inhibit = true) ∧
    (c ∉ s.choices →
      (input_key_press s ⟨.char c, false⟩).model.input_callback = s.input_callback ∧
      (input_key_press s ⟨.char c, false⟩).model.choices = s.choices ∧
      (input_key_press s ⟨.char c, false⟩).msg = none ∧
      ∀ e ∈ (input_key_press s ⟨.char c, false⟩).events, delivers e = false) := by
  have hnb : s.current_mode ≠ BLOCKING_INPUT_MODE := by
    rw [hmode]; simp [INPUT_MODE, BLOCKING_INPUT_MODE]
  constructor
  · intro hc
    simp [input_key_press, handle_input_shortcut, gdk_key_to_key, hshort, hc,
      set_dialog_answer, hnb, hcb, applyMsg, update, clear_shortcut, reset,
      return_to_normal_mode, set_current_identifier, hide_entry_and_completion]
  · intro hc
    have hframe : ∀ ev : KeyEvent,
        (handle_shortcut s ev).model.input_callback = s.input_callback ∧
        (handle_shortcut s ev).model.choices = s.choices ∧
        (handle_shortcut s ev).msg = none ∧
        ∀ e ∈ (handle_shortcut s ev).events, delivers e = false := by
      intro ev
      simp only [handle_shortcut]
      split
      · split
        · split
          · split <;>
              simp [delivers, clear_shortcut, reset, add_to_shortcut, input_command,
                show_entry] <;> split <;> simp [clear_shortcut, reset, add_to_shortcut]
          · split <;>
              · simp [delivers, clear_shortcut, reset, add_to_shortcut]
                all_goals split <;> simp [clear_shortcut, reset, add_to_shortcut]
        · simp [delivers]
      · simp [delivers]
    have hst : input_key_press s ⟨.char c, false⟩ = handle_shortcut s ⟨.char c, false⟩ := by
      simp [input_key_press, handle_input_shortcut, gdk_key_to_key, hshort, hc]
    rw [hst]
    exact hframe _

/-- Witness for C6: with choices `{y, n}`, pressing `y` delivers the answer
`"y"`; pressing `z` leaves the pending request untouched. -/
theorem choices_check_priority_witness :
    (input_key_press witModelC6 ⟨.char 'y', false⟩).events =
      [Event.invokeCallback 1 (some "y") (some 1)] ∧
    (input_key_press witModelC6 ⟨.char 'z', false⟩).model.input_callback = some 1 ∧
    (input_key_press witModelC6 ⟨.char 'z', false⟩).model.choices = ['y', 'n'] := by
  have h1 := (choices_check_priority witModelC6 1 'y' rfl rfl (by decide)).1 (by decide)
  have h2 := (choices_check_priority witModelC6 1 'z' rfl rfl (by decide)).2 (by decide)
  exact ⟨h1.1, h2.1, h2.2.1⟩

/-- C7: with the mode prefix registered, `Unmap` always succeeds with no error
event; afterwards the unmapped sequence has no binding in that mode, every
other (mode, sequence) pair looks up exactly as before, and when the sequence
was not bound at all the whole table is lookup-for-lookup unchanged; the rest
of the state is untouched. -/
theorem unmap_frame (tv : String → String → Bool) (s : Model) (mode : String)
    (keys : List Key) (mn : ModeName)
    (hmode : alistGet s.modes mode = some mn) :
    (call_command tv s (.Unmap keys mode)).isSome ∧
    ∀ s2 evs, call_command tv s (.Unmap keys mode) = some (s2, evs) →
      evs = [] ∧
      lookupMapping s2.mappings mn keys = none ∧
      (∀ m k, ¬(m = mn ∧ k = keys) →
        lookupMapping s2.mappings m k = lookupMapping s.mappings m k) ∧
      (lookupMapping s.mappings mn keys = none → ∀ m k,
        lookupMapping s2.mappings m k = lookupMapping s.mappings m k) ∧
      s2.current_mode = s.current_mode ∧ s2.input_callback = s.input_callback ∧
      s2.current_shortcut = s.current_shortcut ∧ s2.modes = s.modes := by
  constructor
  · simp [call_command, hmode]
  · intro s2 evs h
    simp only [call_command, hmode, Option.some_inj] at h
    obtain ⟨hs2, hevs⟩ := Prod.mk.inj h
    subst hs2
    subst hevs
    have hrem : ∀ k, alistGet (alistRemove ((alistGet s.mappings mn).getD []) keys) k =
        if k = keys then none else alistGet ((alistGet s.mappings mn).getD []) k := by
      intro k
      by_cases hk : k = keys
      · rw [if_pos hk, hk]; exact alistGet_remove_self _ _
      · rw [if_neg hk]; exact alistGet_remove_ne _ _ _ hk
    refine ⟨rfl, ?_, ?_, ?_, rfl, rfl, rfl, rfl⟩
    · simp only [lookupMapping, alistGet_insert_self, Option.some_bind]
      rw [hrem, if_pos rfl]
    · intro m k hmk
      by_cases hm : m = mn
      · subst hm
        have hk : k ≠ keys := fun hk => hmk ⟨rfl, hk⟩
        simp only [lookupMapping, alistGet_insert_self, Option.some_bind]
        rw [hrem, if_neg hk]
        cases halist : alistGet s.mappings m with
        | none => simp [halist, alistGet]
        | some mm0 => simp [halist]
      · simp only [lookupMapping]
        rw [alistGet_insert_ne _ _ _ _ hm]
    · intro hnone m k
      by_cases hmk : m = mn ∧ k = keys
      · obtain ⟨rfl, rfl⟩ := hmk
        rw [hnone]
        simp only [lookupMapping, alistGet_insert_self, Option.some_bind]
        rw [hrem, if_pos rfl]
      · by_cases hm : m = mn
        · subst hm
          have hk : k ≠ keys := fun hk => hmk ⟨rfl, hk⟩
          simp only [lookupMapping, alistGet_insert_self, Option.some_bind]
          rw [hrem, if_neg hk]
          cases halist : alistGet s.mappings m with
          | none => simp [halist, alistGet]
          | some mm0 => simp [halist]
        · simp only [lookupMapping]
          rw [alistGet_insert_ne _ _ _ _ hm]

/-- Witness for C7: unmapping the bound `q` removes exactly that binding and
leaves the `ww` binding in place. -/
theorem unmap_frame_witness :
    lookupMapping witResultC7.1.mappings NORMAL_MODE [Key.char 'q'] = none ∧
    lookupMapping witResultC7.1.mappings NORMAL_MODE [Key.char 'w', Key.char 'w'] =
      lookupMapping witModelC7.mappings NORMAL_MODE [Key.char 'w', Key.char 'w'] := by
  have h := (unmap_frame (fun _ _ => true) witModelC7 "n" [Key.char 'q'] NORMAL_MODE rfl).2
    witResultC7.1 witResultC7.2 (by rfl)
  exact ⟨h.2.1, h.2.2.1 NORMAL_MODE [Key.char 'w', Key.char 'w'] (by decide)⟩

/-- C10: dispatching `Map` or `Unmap` with a mode string that is not a
registered prefix panics (the mode registry is indexed without a presence
check; the panic is modelled as `none`), and with a registered prefix both
succeed — so the registered prefix is exactly the precondition of successful
dispatch. -/
theorem map_unmap_mode_registered (tv : String → String → Bool) (s : Model)
    (mode : String) (keys : List Key) (action : Action) :
    (alistGet s.modes mode = none →
      call_command tv s (.Map action keys mode) = none ∧
      call_command tv s (.Unmap keys mode) = none) ∧
    (∀ mn, alistGet s.modes mode = some mn →
      (call_command tv s (.Map action keys mode)).isSome ∧
      (call_command tv s (.Unmap keys mode)).isSome) := by
  constructor
  · intro h; constructor <;> simp [call_command, h]
  · intro mn h; constructor <;> simp [call_command, h]

/-- Witness for C10: `map`/`unmap` for the unregistered prefix `x` panic on an
empty registry; `map` for the registered prefix `n` succeeds. -/
theorem map_unmap_mode_registered_witness :
    call_command (fun _ _ => true) (initialModel []) (.Map ['x'] [keyG] "x") = none ∧
    call_command (fun _ _ => true) (initialModel []) (.Unmap [keyG] "x") = none ∧
    (call_command (fun _ _ => true) witModelC7 (.Map ['x'] [keyG] "n")).isSome := by
  have h1 := (map_unmap_mode_registered (fun _ _ => true) (initialModel []) "x" [keyG] ['x']).1 rfl
  have h2 := ((map_unmap_mode_registered (fun _ _ => true) witModelC7 "n" [keyG] ['x']).2
    NORMAL_MODE rfl).1
  exact ⟨h1.1, h1.2, h2⟩

/-- C8: `show_parse_error` maps `MissingArgument` to "Argument required",
suppresses `NoCommand` entirely (the error sink is never called), maps `Parse`
to "Parse error: unexpected .., expecting: .." and `UnknownCommand` to
"Not a command: ..", in each case chaining the message onto the original
error so its full cause chain is preserved underneath. -/
theorem show_parse_error_classification (u ex : String) (causes : List ErrKind) (s : Model) :
    show_parse_error ⟨.parse ⟨.MissingArgument, u, ex⟩, causes⟩ =
      some ⟨.msg "Argument required", .parse ⟨.MissingArgument, u, ex⟩ :: causes⟩ ∧
    show_parse_error ⟨.parse ⟨.NoCommand, u, ex⟩, causes⟩ = none ∧
    show_parse_error_step s ⟨.parse ⟨.NoCommand, u, ex⟩, causes⟩ = (s, []) ∧
    show_parse_error ⟨.parse ⟨.Parse, u, ex⟩, causes⟩ =
      some ⟨.msg ("Parse error: unexpected " ++ u ++ ", expecting: " ++ ex),
            .parse ⟨.Parse, u, ex⟩ :: causes⟩ ∧
    show_parse_error ⟨.parse ⟨.UnknownCommand, u, ex⟩, causes⟩ =
      some ⟨.msg ("Not a command: " ++ u), .parse ⟨.UnknownCommand, u, ex⟩ :: causes⟩ := by
  exact ⟨rfl, rfl, rfl, rfl, rfl⟩

/-- C9: a deferred auto-hide timer clears the displayed message if and only if
the text it carries still equals the current message (for both the plain and
the coloured variant the mismatch case leaves the state entirely unchanged),
so the timer scheduled by `info` for an older message never erases a newer,
different message, while the newer message's own timer still clears it. -/
theorem message_timer_value_check (s : Model) (m m1 m2 : String) :
    (s.message = m → (hide_info s m).message = "" ∧ (hide_colored_message s m).message = "") ∧
    (s.message ≠ m → hide_info s m = s ∧ hide_colored_message s m = s) ∧
    (m1 ≠ m2 →
      (info s m1).2 = Msg.HideInfo m1 ∧
      (update (info (info s m1).1 m2).1 (info s m1).2).message = m2 ∧
      (update (update (info (info s m1).1 m2).1 (info s m1).2)
        (info (info s m1).1 m2).2).message = "") := by
  refine ⟨fun h => ?_, fun h => ?_, fun h => ?_⟩
  · constructor <;> simp [hide_info, hide_colored_message, h]
  · constructor <;> simp [hide_info, hide_colored_message, h]
  · have h2 : m2 ≠ m1 := Ne.symm h
    refine ⟨rfl, ?_, ?_⟩
    · simp [info, update, hide_info, h2]
    · simp [info, update, hide_info, h2]

/-- Witness for C9: showing "a" then "b", the stale timer for "a" leaves "b"
displayed and the timer for "b" then clears it. -/
theorem message_timer_value_check_witness :
    (update (info (info (initialModel []) "a").1 "b").1
      (info (initialModel []) "a").2).message = "b" ∧
    (update (update (info (info (initialModel []) "a").1 "b").1
      (info (initialModel []) "a").2) (info (info (initialModel []) "a").1 "b").2).message
      = "" := by
  have h := (message_timer_value_check (initialModel []) "" "a" "b").2.2 (by decide)
  exact ⟨h.2.1, h.2.2⟩

end Mg
